import Mathlib

/-!
Verification of the 对-construction analysis pipeline.

Shallow embedding of the core pipeline of the repository:
`utils/predicate_extractor.py` (lexicon, fallback segmenter `_simple_segment`,
`_find_predicate_in_word`, `_extract_y_and_predicate`, `extract_dui_parts`) and
`utils/corpus_lookup.py` (`CorpusLookup.lookup`, `CorpusLookup.analyse_in_context`,
`CorpusLookup.get_similar_predicates`, `CONTEXT_OVERRIDES`).

Strings are modelled as `List Char` (`Str`).  Python's `str.split('对', 1)`,
`str.startswith`, `in` (substring test) and list slicing are modelled by the
corresponding total list operations.  The corpus table, loaded from a JSON file
that is not part of the sources, is a parameter (an association list in
insertion order, matching a Python 3.7+ dict).  Float percentages are modelled
as rationals.

`segment_sentence` delegates to the external `jieba` tokenizer when that
library is importable and otherwise falls back to the in-repo `_simple_segment`.
The external tokenizer is outside the repository, so the embedding models the
deterministic fallback path, with the lexicon constants exactly as written at
module level in `predicate_extractor.py` (the guard `PREDICATE_WORDS` list is
transcribed verbatim from lines 24-64).
-/

namespace DuiAnalyser

/-- Strings are lists of characters. -/
abbrev Str := List Char

/-- The preposition under analysis. -/
def dui : Char := '对'

/-- `PREDICATE_WORDS` from `predicate_extractor.py` lines 24-64, in source order. -/
def PREDICATE_WORDS : List Str := [
  "喜欢".toList, "讨厌".toList, "害怕".toList, "担心".toList, "担忧".toList, "恐惧".toList, "忧虑".toList,
  "满意".toList, "不满".toList, "失望".toList, "绝望".toList, "感激".toList, "感恩".toList, "怨恨".toList, "痛恨".toList,
  "佩服".toList, "敬佩".toList, "钦佩".toList, "崇拜".toList, "景仰".toList, "惊讶".toList, "惊喜".toList, "诧异".toList,
  "气愤".toList, "愤怒".toList, "愤慨".toList, "热爱".toList, "钟爱".toList, "眷恋".toList, "思念".toList,
  "了解".toList, "理解".toList, "认识".toList, "熟悉".toList, "知道".toList, "明白".toList, "懂".toList,
  "怀疑".toList, "相信".toList, "信任".toList, "信赖".toList, "依赖".toList,
  "关心".toList, "关注".toList, "注意".toList, "重视".toList, "在意".toList, "在乎".toList, "留意".toList,
  "尊重".toList, "尊敬".toList, "敬重".toList, "看重".toList, "珍视".toList,
  "感到".toList, "觉得".toList, "感觉".toList,
  "感兴趣".toList, "有兴趣".toList, "没兴趣".toList, "没有兴趣".toList, "不感兴趣".toList,
  "有好感".toList, "有信心".toList, "有把握".toList, "有印象".toList, "没印象".toList,
  "有意见".toList, "有看法".toList, "抱有".toList, "怀有".toList, "持有".toList,
  "发表".toList, "表态".toList, "置评".toList, "发言".toList, "评价".toList, "评论".toList, "评述".toList, "点评".toList,
  "分析".toList, "研究".toList, "探讨".toList, "考察".toList, "调查".toList, "调研".toList,
  "讨论".toList, "辩论".toList, "争论".toList, "商议".toList, "商讨".toList,
  "报道".toList, "报告".toList, "陈述".toList, "描述".toList, "阐述".toList, "论述".toList,
  "提出".toList, "作出".toList, "做出".toList, "给出".toList, "给予".toList,
  "进行".toList, "实行".toList, "实施".toList, "执行".toList, "采取".toList, "开展".toList, "展开".toList,
  "检查".toList, "监督".toList, "管理".toList, "整顿".toList, "治理".toList,
  "帮助".toList, "照顾".toList, "保护".toList, "培训".toList, "治疗".toList, "教育".toList,
  "负责".toList, "负".toList, "要求".toList, "施加".toList, "开放".toList,
  "反抗".toList, "抵抗".toList, "对抗".toList, "攻击".toList,
  "说".toList, "讲".toList, "喊".toList, "叫".toList, "问".toList, "答".toList, "笑".toList, "骂".toList, "吼".toList, "嚷".toList,
  "说道".toList, "问道".toList, "答道".toList, "喊道".toList, "笑道".toList,
  "点头".toList, "摇头".toList, "挥手".toList, "鞠躬".toList, "微笑".toList,
  "解释".toList, "交代".toList, "表示".toList,
  "热情".toList, "冷淡".toList, "冷漠".toList, "友好".toList, "友善".toList, "客气".toList, "礼貌".toList, "恭敬".toList,
  "粗暴".toList, "蛮横".toList, "霸道".toList, "好".toList, "坏".toList, "像".toList, "如同".toList,
  "服从".toList, "顺从".toList, "言听计从".toList, "百依百顺".toList,
  "有用".toList, "有益".toList, "有害".toList, "有利".toList, "不利".toList, "有效".toList, "无效".toList,
  "重要".toList, "必要".toList, "关键".toList, "危险".toList, "公平".toList, "不公平".toList,
  "造成".toList, "导致".toList, "带来".toList, "产生".toList, "起".toList]

/-- `ALL_PREDICATES = set(PREDICATE_WORDS)`: used only through membership. -/
def ALL_PREDICATES : List Str := PREDICATE_WORDS

/-- `DEGREE_ADVERBS` from `predicate_extractor.py` lines 101-105. -/
def DEGREE_ADVERBS : List Str := [
  "很".toList, "非常".toList, "十分".toList, "特别".toList, "比较".toList, "挺".toList, "颇".toList, "极其".toList,
  "相当".toList, "格外".toList, "更".toList, "更加".toList, "最".toList, "太".toList, "真".toList, "好".toList, "蛮".toList,
  "越来越".toList, "愈来愈".toList, "越发".toList, "尤其".toList, "极".toList, "甚".toList, "颇为".toList]

/-- `NEGATION_WORDS` from `predicate_extractor.py` line 108. -/
def NEGATION_WORDS : List Str := [
  "不".toList, "没".toList, "没有".toList, "未".toList, "非".toList, "莫".toList, "勿".toList, "别".toList, "无".toList]

/-- `COMMON_NOUNS` from `predicate_extractor.py` lines 111-118 (the module-level set). -/
def COMMON_NOUNS : List Str := [
  "问题".toList, "情况".toList, "现象".toList, "事情".toList, "事件".toList, "结果".toList, "原因".toList,
  "这个".toList, "那个".toList, "这些".toList, "那些".toList, "这件事".toList, "那件事".toList,
  "工作".toList, "学习".toList, "生活".toList, "健康".toList, "经济".toList, "社会".toList, "环境".toList,
  "企业".toList, "公司".toList, "政府".toList, "国家".toList, "世界".toList, "市场".toList,
  "老师".toList, "学生".toList, "朋友".toList, "同事".toList, "领导".toList, "客人".toList,
  "经济发展".toList, "社会发展".toList, "科学技术".toList, "意见".toList, "看法".toList]

/-- The membership test of `_simple_segment`:
`substr in ALL_PREDICATES or substr in DEGREE_ADVERBS`.
(The source consults only these two sets; `NEGATION_WORDS` is not consulted.) -/
def is_lex_hit (ws : Str) : Bool :=
  decide (ws ∈ ALL_PREDICATES) || decide (ws ∈ DEGREE_ADVERBS)

/-- The greedy probe of `_simple_segment`: try lengths 4,3,2,1 in that order;
a length qualifies when it fits in the remaining text and the substring is a
lexicon hit (`if i + length <= len(text)` then `substr in ... or ...`). -/
def match_len (t : Str) : Option Nat :=
  [4, 3, 2, 1].find? (fun n => decide (n ≤ t.length) && is_lex_hit (t.take n))

/-- Length of the token emitted at the current position: the matched length,
or 1 for the single-character fallback (`result.append(text[i]); i += 1`). -/
def seg_len (t : Str) : Nat :=
  match match_len t with
  | some n => n
  | none => 1

/-- Fuel-indexed worker for `_simple_segment`; the fuel is an upper bound on
the text length, so the fuel never runs out on the actual call. -/
def seg_go : Nat → Str → List Str
  | _, [] => []
  | 0, _ :: _ => []
  | fuel + 1, c :: rest =>
    let t := c :: rest
    t.take (seg_len t) :: seg_go fuel (t.drop (seg_len t))

/-- `_simple_segment` from `predicate_extractor.py` lines 134-151. -/
def simple_segment (t : Str) : List Str :=
  seg_go t.length t

/-- Predicates sorted by length, longest first, matching
`sorted(ALL_PREDICATES, key=len, reverse=True)`.  Python's set iteration
leaves the relative order of equal-length entries unspecified, but every use
below is a `startswith` scan and at most one predicate of a given length can
be a prefix of a fixed word, so any length-descending order gives the same
result; we fix source order within each length. -/
def sorted_preds : List Str :=
  ALL_PREDICATES.filter (fun p => decide (p.length = 4)) ++
  ALL_PREDICATES.filter (fun p => decide (p.length = 3)) ++
  ALL_PREDICATES.filter (fun p => decide (p.length = 2)) ++
  ALL_PREDICATES.filter (fun p => decide (p.length = 1))

/-- The affix characters of `_find_predicate_in_word`
(`remaining[0] not in '的地得了着过'`). -/
def AFFIX_CHARS : List Char := ['的', '地', '得', '了', '着', '过']

/-- `remaining and remaining[0] not in '的地得了着过'`. -/
def head_not_affix (r : Str) : Bool :=
  match r with
  | [] => false
  | c :: _ => decide (c ∉ AFFIX_CHARS)

/-- The negation-prefix branch of `_find_predicate_in_word`
(`word.startswith(('不','没','未'))` then `remainder` checks). -/
def neg_branch : Str → Option Str
  | [] => none
  | c :: r =>
    if c ∈ ['不', '没', '未'] then
      if r ∈ ALL_PREDICATES then some (c :: r)
      else (sorted_preds.find? (fun p => p.isPrefixOf r)).map (fun p => c :: p)
    else none

/-- The final loop of `_find_predicate_in_word`: the longest predicate that is
a proper prefix of the word, whose leftover does not start with an affix
character, and (redundantly re-checked in the source) where the word is not a
common noun. -/
def starts_branch (w : Str) : Option Str :=
  sorted_preds.find? (fun p =>
    p.isPrefixOf w && decide (p.length < w.length) &&
    head_not_affix (w.drop p.length) && decide (w ∉ COMMON_NOUNS))

/-- `_find_predicate_in_word` from `predicate_extractor.py` lines 196-237. -/
def find_predicate_in_word (w : Str) : Option Str :=
  if w ∈ COMMON_NOUNS then none
  else if w ∈ ALL_PREDICATES then some w
  else
    match neg_branch w with
    | some r => some r
    | none => starts_branch w

/-- The inner `for j in range(i+1, len(words))` loop of
`_extract_y_and_predicate` run after a degree adverb: returns the predicate
and the after-predicate remainder, or `('','')` when nothing qualifies. -/
def scan_after_adverb : List Str → Str × Str
  | [] => ([], [])
  | w :: rest =>
    match find_predicate_in_word w with
    | some p => (p, w.drop p.length ++ rest.flatten)
    | none =>
      if w ∈ DEGREE_ADVERBS ∨ w ∈ NEGATION_WORDS then scan_after_adverb rest
      else (w, rest.flatten)

/-- The main `while i < len(words)` scan of `_extract_y_and_predicate`.
`pre` is `words[:i]`.  Returns `some (y_parts, predicate, after_pred)` when
the loop breaks (in the degree-adverb branch the predicate may be empty),
and `none` when the loop runs off the end without a trigger. -/
def scan_tokens (pre : List Str) : List Str → Option (List Str × Str × Str)
  | [] => none
  | w :: rest =>
    if w ∈ DEGREE_ADVERBS then
      some (pre, scan_after_adverb rest)
    else
      match find_predicate_in_word w with
      | some p => some (pre, p, w.drop p.length ++ rest.flatten)
      | none =>
        if w ∈ NEGATION_WORDS then
          match rest with
          | [] => none
          | w2 :: rest2 =>
            match find_predicate_in_word w2 with
            | some p => some (pre, w ++ p, w2.drop p.length ++ rest2.flatten)
            | none => scan_tokens (pre ++ [w]) rest
        else scan_tokens (pre ++ [w]) rest

/-- `word.endswith(('人', '者', '们'))`. -/
def ends_person_suffix (w : Str) : Bool :=
  match w.getLast? with
  | some c => decide (c ∈ ['人', '者', '们'])
  | none => false

/-- The trailing fallback loop of `_extract_y_and_predicate`
(`for idx, word in enumerate(words)` looking for a 2-character verb-like
word).  `pre` is `words[:idx]`. -/
def fallback_scan (pre : List Str) : List Str → Option (List Str × Str × Str)
  | [] => none
  | w :: rest =>
    if 2 ≤ w.length ∧ w ∉ DEGREE_ADVERBS ∧ w ∉ ["的".toList, "地".toList, "得".toList] ∧
        ends_person_suffix w = false then
      some (pre, w, rest.flatten)
    else fallback_scan (pre ++ [w]) rest

/-- The `if not predicate and words:` fallback step of
`_extract_y_and_predicate`: when the fallback loop finds a word it overrides
`y_parts`/`predicate`/`after_pred`, otherwise the values left by the main scan
(`default`) stand. -/
def apply_fallback (words : List Str) (default : Str × Str × Str) : Str × Str × Str :=
  match fallback_scan [] words with
  | some (yp2, p2, a2) => (yp2.flatten, p2, a2)
  | none => default

/-- `_extract_y_and_predicate` from `predicate_extractor.py` lines 240-317.
(Its `original_text` parameter is unused in the source and is omitted.) -/
def extract_y_and_predicate (words : List Str) : Str × Str × Str :=
  match scan_tokens [] words with
  | some (yp, p, a) =>
    if p = [] then apply_fallback words (yp.flatten, p, a) else (yp.flatten, p, a)
  | none => apply_fallback words ([], [], [])

/-- The record returned by `extract_dui_parts` (a five-key string dict in the
source). -/
structure SentenceParts where
  before_dui : Str
  y_phrase : Str
  predicate : Str
  after_predicate : Str
  full_after_dui : Str
deriving DecidableEq, Repr

/-- The all-empty record that `extract_dui_parts` starts from. -/
def emptyParts : SentenceParts := ⟨[], [], [], [], []⟩

/-- `sentence.split('对', 1)`: split on the first occurrence only. -/
def py_split1 (s : Str) : List Str :=
  if dui ∈ s then
    [s.takeWhile (fun c => decide (c ≠ dui)), (s.dropWhile (fun c => decide (c ≠ dui))).tail]
  else [s]

/-- `extract_dui_parts` from `predicate_extractor.py` lines 154-193, on the
deterministic (no external tokenizer) segmentation path. -/
def extract_dui_parts (s : Str) : SentenceParts :=
  if dui ∈ s then
    let parts := py_split1 s
    let before := parts.headD []
    if parts.length < 2 then { emptyParts with before_dui := before }
    else
      let after := parts.getD 1 []
      let words := simple_segment after
      let yp := extract_y_and_predicate words
      ⟨before, yp.1, yp.2.1, yp.2.2, after⟩
  else emptyParts

/-- Guarded variant of `extract_dui_parts` in which the two list indexings of
the source (`parts[0]` and `parts[1]`) are modelled with `List.get?`, so that
any Python `IndexError` would surface as `none`. -/
def extract_dui_parts_checked (s : Str) : Option SentenceParts :=
  if dui ∈ s then
    let parts := py_split1 s
    match parts.get? 0 with
    | none => none
    | some before =>
      if parts.length < 2 then some { emptyParts with before_dui := before }
      else
        match parts.get? 1 with
        | none => none
        | some after =>
          let yp := extract_y_and_predicate (simple_segment after)
          some ⟨before, yp.1, yp.2.1, yp.2.2, after⟩
  else some emptyParts

/-- One value of the corpus table: `total`, `dominant_type`, `confidence`. -/
structure PredicateStat where
  total : Nat
  dominant_type : Str
  confidence : ℚ
deriving DecidableEq, Repr

/-- The preloaded `self.corpus_data` dict, in insertion order. -/
abbrev CorpusTable := List (Str × PredicateStat)

/-- `CorpusLookup.lookup`: `self.corpus_data[predicate]` when present,
`None` otherwise. -/
def corpus_lookup (table : CorpusTable) (predicate : Str) : Option PredicateStat :=
  (table.find? (fun kv => decide (kv.1 = predicate))).map (fun kv => kv.2)

/-- One entry of `CONTEXT_OVERRIDES`: the marker lists declared for a
predicate.  A list a given rule does not declare is empty (Python's
`override.get(..., [])`). -/
structure OverrideRule where
  ABT_markers : List Str
  DA_markers : List Str
  MS_markers : List Str
  EVAL_markers : List Str
deriving DecidableEq, Repr

/-- The rule registered for 发表 (`corpus_lookup.py` lines 69-73). -/
def rule_fabiao : OverrideRule :=
  ⟨[("意见".toList), ("看法".toList), ("观点".toList), ("声明".toList), ("讲话".toList), ("评论".toList)],
   [("微笑".toList), ("笑容".toList), ("善意".toList)], [], []⟩

/-- The rule registered for 表示 (`corpus_lookup.py` lines 74-78). -/
def rule_biaoshi : OverrideRule :=
  ⟨[("关切".toList), ("遗憾".toList), ("不满".toList), ("欢迎".toList), ("支持".toList), ("反对".toList)],
   [], [], []⟩

/-- The rule registered for 有 (`corpus_lookup.py` lines 79-84); the source
dict declares its lists in the order MS, EVAL, ABT. -/
def rule_you : OverrideRule :=
  ⟨[("意见".toList), ("看法".toList), ("研究".toList)],
   [],
   [("兴趣".toList), ("信心".toList), ("把握".toList), ("好感".toList), ("印象".toList), ("了解".toList), ("感情".toList)],
   [("益".toList), ("害".toList), ("利".toList), ("用".toList), ("效".toList), ("帮助".toList), ("作用".toList), ("影响".toList)]⟩

/-- `CONTEXT_OVERRIDES` from `corpus_lookup.py` lines 68-85. -/
def CONTEXT_OVERRIDES : List (Str × OverrideRule) := [
  (("发表".toList), rule_fabiao),
  (("表示".toList), rule_biaoshi),
  (("有".toList), rule_you)]

/-- `predicate in CONTEXT_OVERRIDES` / `CONTEXT_OVERRIDES[predicate]`. -/
def find_override (predicate : Str) : Option OverrideRule :=
  (CONTEXT_OVERRIDES.find? (fun kv => decide (kv.1 = predicate))).map (fun kv => kv.2)

/-- Python's substring test `m in t` on strings. -/
def str_contains (t m : Str) : Bool :=
  m.isPrefixOf t ||
    (match t with
     | [] => false
     | _ :: ts => str_contains ts m)

/-- One marker-list pass of `analyse_in_context`: the first marker that
occurs in the context text. -/
def check_markers (markers : List Str) (ctx : Str) : Option Str :=
  markers.find? (fun m => str_contains ctx m)

/-- The override cascade of `analyse_in_context` (lines 194-222): ABT
markers, then MS markers, then EVAL markers; the declared DA marker lists
are never consulted.  Returns the category code and the matching marker. -/
def override_result (r : OverrideRule) (ctx : Str) : Option (Str × Str) :=
  match check_markers r.ABT_markers ctx with
  | some m => some (("ABT".toList), m)
  | none =>
    match check_markers r.MS_markers ctx with
    | some m => some (("MS".toList), m)
    | none =>
      match check_markers r.EVAL_markers ctx with
      | some m => some (("EVAL".toList), m)
      | none => none

/-- The result dict of `analyse_in_context` (claim-relevant fields;
`contextual_reason` and `learning_notes` are f-strings over
`matched_marker`, `contextual_type` and `confidence`). -/
structure AnalysisResult where
  predicate : Str
  corpus_found : Bool
  corpus_data : Option PredicateStat
  contextual_type : Option Str
  matched_marker : Option Str
deriving DecidableEq, Repr

/-- `CorpusLookup.analyse_in_context` from `corpus_lookup.py` lines 168-235:
context text is `complement + y_phrase + full_sentence`; a registered
override rule is consulted first (ABT, MS, EVAL marker lists in that order);
otherwise the corpus dominant type of the predicate, when found, decides. -/
def analyse_in_context (table : CorpusTable) (predicate complement y_phrase full_sentence : Str) :
    AnalysisResult :=
  let corpus_data := corpus_lookup table predicate
  let context_text := complement ++ y_phrase ++ full_sentence
  let ov :=
    match find_override predicate with
    | some r => override_result r context_text
    | none => none
  let contextual_type :=
    match ov with
    | some tm => some tm.1
    | none => corpus_data.map (fun st => st.dominant_type)
  { predicate := predicate
    corpus_found := corpus_data.isSome
    corpus_data := corpus_data
    contextual_type := contextual_type
    matched_marker := ov.map (fun tm => tm.2) }

/-- The filtered candidate pool of `get_similar_predicates`: other corpus
entries with the same dominant type whose confidence is within 0.2 of the
reference, tupled as `(pred, target_type, total)` in table order. -/
def similar_pool (table : CorpusTable) (predicate : Str) (st : PredicateStat) :
    List (Str × Str × Nat) :=
  (table.filter (fun kv =>
      decide (kv.1 ≠ predicate) && decide (kv.2.dominant_type = st.dominant_type) &&
      decide (|kv.2.confidence - st.confidence| < 1 / 5))).map
    (fun kv => (kv.1, st.dominant_type, kv.2.total))

/-- The comparison of `similar.sort(key=lambda x: x[2], reverse=True)`:
descending count; Python's sort is stable, as is `List.mergeSort`. -/
def count_ge (a b : Str × Str × Nat) : Bool :=
  decide (b.2.2 ≤ a.2.2)

/-- `CorpusLookup.get_similar_predicates` from `corpus_lookup.py`
lines 237-267. -/
def get_similar_predicates (table : CorpusTable) (predicate : Str) (limit : Nat) :
    List (Str × Str × Nat) :=
  match corpus_lookup table predicate with
  | none => []
  | some st => ((similar_pool table predicate st).mergeSort count_ge).take limit

/-- A one-entry corpus table used to instantiate the classifier theorems. -/
def stat_shuo : PredicateStat := ⟨100, ("DA".toList), 1 / 2⟩

def table_shuo : CorpusTable := [(("说".toList), stat_shuo)]

theorem match_len_mem {t : Str} {n : Nat} (h : match_len t = some n) :
    n ∈ [4, 3, 2, 1] :=
  List.mem_of_find?_eq_some h

theorem match_len_le {t : Str} {n : Nat} (h : match_len t = some n) :
    n ≤ t.length ∧ is_lex_hit (t.take n) = true := by
  have hp := List.find?_some h
  rw [Bool.and_eq_true, decide_eq_true_eq] at hp
  exact hp

theorem seg_len_pos (t : Str) : 1 ≤ seg_len t := by
  unfold seg_len
  cases h : match_len t with
  | none => exact Nat.le_refl 1
  | some n =>
    have := match_len_mem h
    fin_cases this <;> simp

theorem seg_len_le {t : Str} (ht : t ≠ []) : seg_len t ≤ t.length := by
  unfold seg_len
  cases h : match_len t with
  | none =>
    cases t with
    | nil => exact absurd rfl ht
    | cons c r => simp
  | some n => exact (match_len_le h).1

/-- Concatenating the emitted tokens restores the input (worker version). -/
theorem seg_go_flatten : ∀ (fuel : Nat) (t : Str), t.length ≤ fuel →
    (seg_go fuel t).flatten = t := by
  intro fuel
  induction fuel with
  | zero =>
    intro t ht
    cases t with
    | nil => rfl
    | cons c r => simp at ht
  | succ f ih =>
    intro t ht
    cases t with
    | nil => rfl
    | cons c r =>
      show ((c :: r).take (seg_len (c :: r)) :: seg_go f ((c :: r).drop (seg_len (c :: r)))).flatten = c :: r
      have hdrop : ((c :: r).drop (seg_len (c :: r))).length ≤ f := by
        have h1 := seg_len_pos (c :: r)
        have h2 : ((c :: r).drop (seg_len (c :: r))).length = (c :: r).length - seg_len (c :: r) := by
          simp
        omega
      rw [List.flatten_cons, ih _ hdrop, List.take_append_drop]

/-- Every token emitted by the worker is non-empty, and every token of length
at least 2 is an exact hit of the predicate or degree-adverb lexicon. -/
theorem seg_go_tokens : ∀ (fuel : Nat) (t : Str), t.length ≤ fuel →
    ∀ tok ∈ seg_go fuel t,
      tok ≠ [] ∧ (2 ≤ tok.length → tok ∈ ALL_PREDICATES ∨ tok ∈ DEGREE_ADVERBS) := by
  intro fuel
  induction fuel with
  | zero =>
    intro t ht tok htok
    cases t with
    | nil => simp [seg_go] at htok
    | cons c r => simp at ht
  | succ f ih =>
    intro t ht tok htok
    cases t with
    | nil => simp [seg_go] at htok
    | cons c r =>
      have hstep : seg_go (f + 1) (c :: r) =
          (c :: r).take (seg_len (c :: r)) :: seg_go f ((c :: r).drop (seg_len (c :: r))) := rfl
      rw [hstep, List.mem_cons] at htok
      rcases htok with htok | htok
      · subst htok
        constructor
        · have h1 := seg_len_pos (c :: r)
          intro hnil
          have : ((c :: r).take (seg_len (c :: r))).length = 0 := by rw [hnil]; rfl
          rw [List.length_take] at this
          simp at this
          omega
        · intro h2
          have h3 : 2 ≤ seg_len (c :: r) := by
            rw [List.length_take, Nat.le_min] at h2
            exact h2.1
          cases h : match_len (c :: r) with
          | none =>
            exfalso
            have h4 : seg_len (c :: r) = 1 := by unfold seg_len; rw [h]
            omega
          | some n =>
            have h4 : seg_len (c :: r) = n := by unfold seg_len; rw [h]
            have h5 := (match_len_le h).2
            rw [h4]
            unfold is_lex_hit at h5
            rw [Bool.or_eq_true, decide_eq_true_eq, decide_eq_true_eq] at h5
            exact h5
      · have hdrop : ((c :: r).drop (seg_len (c :: r))).length ≤ f := by
          have h1 := seg_len_pos (c :: r)
          have h2 : ((c :: r).drop (seg_len (c :: r))).length = (c :: r).length - seg_len (c :: r) := by
            simp
          omega
        exact ih _ hdrop tok htok

theorem simple_segment_flatten (t : Str) : (simple_segment t).flatten = t :=
  seg_go_flatten t.length t (Nat.le_refl _)

theorem simple_segment_tokens (t : Str) :
    ∀ tok ∈ simple_segment t,
      tok ≠ [] ∧ (2 ≤ tok.length → tok ∈ ALL_PREDICATES ∨ tok ∈ DEGREE_ADVERBS) :=
  seg_go_tokens t.length t (Nat.le_refl _)

theorem sorted_preds_subset {p : Str} (h : p ∈ sorted_preds) : p ∈ ALL_PREDICATES := by
  unfold sorted_preds at h
  simp only [List.mem_append, List.mem_filter] at h
  rcases h with ((h | h) | h) | h <;> exact h.1

set_option maxRecDepth 8192 in
theorem all_preds_nonempty : ∀ q ∈ ALL_PREDICATES, q ≠ [] := by decide

theorem negs_nonempty : ∀ q ∈ NEGATION_WORDS, q ≠ [] := by decide

/-- Step equation for the main scan. -/
theorem scan_tokens_cons (pre : List Str) (w : Str) (rest : List Str) :
    scan_tokens pre (w :: rest) =
      (if w ∈ DEGREE_ADVERBS then
        some (pre, scan_after_adverb rest)
      else
        match find_predicate_in_word w with
        | some p => some (pre, p, w.drop p.length ++ rest.flatten)
        | none =>
          if w ∈ NEGATION_WORDS then
            match rest with
            | [] => none
            | w2 :: rest2 =>
              match find_predicate_in_word w2 with
              | some p => some (pre, w ++ p, w2.drop p.length ++ rest2.flatten)
              | none => scan_tokens (pre ++ [w]) rest
          else scan_tokens (pre ++ [w]) rest) := rfl

/-- Step equation for the fallback scan. -/
theorem fallback_scan_cons (pre : List Str) (w : Str) (rest : List Str) :
    fallback_scan pre (w :: rest) =
      (if 2 ≤ w.length ∧ w ∉ DEGREE_ADVERBS ∧ w ∉ ["的".toList, "地".toList, "得".toList] ∧
          ends_person_suffix w = false then
        some (pre, w, rest.flatten)
      else fallback_scan (pre ++ [w]) rest) := rfl

/-- Anything returned by `_find_predicate_in_word` is a non-empty prefix of
the scanned word (the source always strips the match from the front). -/
theorem find_pred_sub {w p : Str} (h : find_predicate_in_word w = some p) :
    p ≠ [] ∧ ∃ r, p ++ r = w := by
  unfold find_predicate_in_word at h
  by_cases hcn : w ∈ COMMON_NOUNS
  · rw [if_pos hcn] at h; cases h
  rw [if_neg hcn] at h
  by_cases hap : w ∈ ALL_PREDICATES
  · rw [if_pos hap] at h
    cases h
    exact ⟨all_preds_nonempty _ hap, [], List.append_nil _⟩
  rw [if_neg hap] at h
  have starts_case : ∀ (hs : starts_branch w = some p), p ≠ [] ∧ ∃ r, p ++ r = w := by
    intro hs
    have hq := List.find?_some hs
    have hmem := List.mem_of_find?_eq_some hs
    rw [Bool.and_eq_true, Bool.and_eq_true, Bool.and_eq_true] at hq
    have hpre : p <+: w := (List.isPrefixOf_iff_prefix).1 hq.1.1.1
    exact ⟨all_preds_nonempty _ (sorted_preds_subset hmem), hpre⟩
  cases hnb : neg_branch w with
  | some q =>
    rw [hnb] at h
    cases h
    cases w with
    | nil => cases hnb
    | cons c rest =>
      simp only [neg_branch] at hnb
      by_cases hc : c ∈ ['不', '没', '未']
      · rw [if_pos hc] at hnb
        by_cases hrp : rest ∈ ALL_PREDICATES
        · rw [if_pos hrp] at hnb
          cases hnb
          exact ⟨List.cons_ne_nil _ _, [], List.append_nil _⟩
        · rw [if_neg hrp] at hnb
          cases hfind : sorted_preds.find? (fun q2 => q2.isPrefixOf rest) with
          | some q2 =>
            rw [hfind] at hnb
            dsimp only [Option.map] at hnb
            cases hnb
            have hq2 := List.find?_some hfind
            have hpre : q2 <+: rest := (List.isPrefixOf_iff_prefix).1 hq2
            obtain ⟨r2, hr2⟩ := hpre
            exact ⟨List.cons_ne_nil _ _, r2, by rw [List.cons_append, hr2]⟩
          | none =>
            rw [hfind] at hnb
            cases hnb
      · rw [if_neg hc] at hnb; cases hnb
  | none =>
    rw [hnb] at h
    exact starts_case h

theorem find_pred_consume {w p : Str} (h : find_predicate_in_word w = some p) :
    p ++ w.drop p.length = w := by
  obtain ⟨-, r, hr⟩ := find_pred_sub h
  have : w.drop p.length = r := by rw [← hr, List.drop_left]
  rw [this, hr]

/-- When no token is a degree adverb, a successful main scan reconstructs the
token sequence exactly and returns a non-empty predicate. -/
theorem scan_tokens_recon :
    ∀ (ws : List Str) (pre yp : List Str) (p a : Str),
      (∀ w ∈ ws, w ∉ DEGREE_ADVERBS) →
      scan_tokens pre ws = some (yp, p, a) →
      p ≠ [] ∧ yp.flatten ++ (p ++ a) = pre.flatten ++ ws.flatten := by
  intro ws
  induction ws with
  | nil => intro pre yp p a _ h; cases h
  | cons w rest ih =>
    intro pre yp p a hadv h
    have hw : w ∉ DEGREE_ADVERBS := hadv w (List.mem_cons_self w rest)
    have hrest : ∀ x ∈ rest, x ∉ DEGREE_ADVERBS := fun x hx => hadv x (List.mem_cons_of_mem w hx)
    rw [scan_tokens_cons, if_neg hw] at h
    cases hfp : find_predicate_in_word w with
    | some q =>
      rw [hfp] at h
      dsimp only at h
      cases h
      refine ⟨(find_pred_sub hfp).1, ?_⟩
      have hcons := find_pred_consume hfp
      rw [show ∀ x : Str, x ++ (w.drop x.length ++ rest.flatten) =
            (x ++ w.drop x.length) ++ rest.flatten from fun x => (List.append_assoc _ _ _).symm,
        hcons, List.flatten_cons]
    | none =>
      rw [hfp] at h
      dsimp only at h
      by_cases hneg : w ∈ NEGATION_WORDS
      · rw [if_pos hneg] at h
        cases rest with
        | nil => cases h
        | cons w2 rest2 =>
          dsimp only at h
          cases hfp2 : find_predicate_in_word w2 with
          | some q =>
            rw [hfp2] at h
            dsimp only at h
            cases h
            refine ⟨?_, ?_⟩
            · intro hnil
              have := negs_nonempty w hneg
              simp only [List.append_eq_nil] at hnil
              exact this hnil.1
            · have hcons := find_pred_consume hfp2
              calc pre.flatten ++ ((w ++ q) ++ (w2.drop q.length ++ (rest2).flatten))
                  = pre.flatten ++ (w ++ ((q ++ w2.drop q.length) ++ rest2.flatten)) := by
                    simp [List.append_assoc]
                _ = pre.flatten ++ (w ++ (w2 ++ rest2.flatten)) := by rw [hcons]
                _ = pre.flatten ++ (w :: w2 :: rest2).flatten := by
                    simp [List.flatten_cons]
          | none =>
            rw [hfp2] at h
            dsimp only at h
            have hres := ih (pre ++ [w]) yp p a hrest h
            refine ⟨hres.1, ?_⟩
            rw [hres.2]
            simp [List.flatten_append, List.flatten_cons]
      · rw [if_neg hneg] at h
        have hres := ih (pre ++ [w]) yp p a hrest h
        refine ⟨hres.1, ?_⟩
        rw [hres.2]
        simp [List.flatten_append, List.flatten_cons]

/-- A successful fallback scan reconstructs the token sequence exactly and
returns a non-empty predicate. -/
theorem fallback_scan_recon :
    ∀ (ws : List Str) (pre yp : List Str) (p a : Str),
      fallback_scan pre ws = some (yp, p, a) →
      p ≠ [] ∧ yp.flatten ++ (p ++ a) = pre.flatten ++ ws.flatten := by
  intro ws
  induction ws with
  | nil => intro pre yp p a h; cases h
  | cons w rest ih =>
    intro pre yp p a h
    rw [fallback_scan_cons] at h
    by_cases hc : 2 ≤ w.length ∧ w ∉ DEGREE_ADVERBS ∧
        w ∉ ["的".toList, "地".toList, "得".toList] ∧ ends_person_suffix w = false
    · rw [if_pos hc] at h
      cases h
      refine ⟨?_, by rw [List.flatten_cons]⟩
      intro hnil
      rw [hnil] at hc
      simp at hc
    · rw [if_neg hc] at h
      have hres := ih (pre ++ [w]) yp p a h
      refine ⟨hres.1, ?_⟩
      rw [hres.2]
      simp [List.flatten_append, List.flatten_cons]

theorem apply_fallback_some {ws : List Str} {yp2 : List Str} {p2 a2 : Str}
    (hfb : fallback_scan [] ws = some (yp2, p2, a2)) (d : Str × Str × Str) :
    apply_fallback ws d = (yp2.flatten, p2, a2) := by
  unfold apply_fallback
  rw [hfb]

theorem apply_fallback_none {ws : List Str}
    (hfb : fallback_scan [] ws = none) (d : Str × Str × Str) :
    apply_fallback ws d = d := by
  unfold apply_fallback
  rw [hfb]

theorem eyp_of_scan_some {ws yp : List Str} {p a : Str}
    (hscan : scan_tokens [] ws = some (yp, p, a)) :
    extract_y_and_predicate ws =
      (if p = [] then apply_fallback ws (yp.flatten, p, a) else (yp.flatten, p, a)) := by
  unfold extract_y_and_predicate
  rw [hscan]

theorem eyp_of_scan_none {ws : List Str}
    (hscan : scan_tokens [] ws = none) :
    extract_y_and_predicate ws = apply_fallback ws ([], [], []) := by
  unfold extract_y_and_predicate
  rw [hscan]

/-- Reconstruction for `_extract_y_and_predicate`: with no degree adverb among
the tokens and a non-empty extracted predicate, the three output fields
concatenate to exactly the concatenation of the input tokens. -/
theorem extract_y_and_predicate_recon (ws : List Str)
    (hadv : ∀ w ∈ ws, w ∉ DEGREE_ADVERBS)
    (hp : (extract_y_and_predicate ws).2.1 ≠ []) :
    (extract_y_and_predicate ws).1 ++ (extract_y_and_predicate ws).2.1 ++
      (extract_y_and_predicate ws).2.2 = ws.flatten := by
  have hfbgen : ∀ d : Str × Str × Str, d.2.1 = [] →
      (apply_fallback ws d).2.1 ≠ [] →
      (apply_fallback ws d).1 ++ (apply_fallback ws d).2.1 ++ (apply_fallback ws d).2.2 =
        ws.flatten := by
    intro d hd hne
    cases hfb : fallback_scan [] ws with
    | some res2 =>
      obtain ⟨yp2, p2, a2⟩ := res2
      rw [apply_fallback_some hfb]
      have hres := fallback_scan_recon ws [] yp2 p2 a2 hfb
      simpa [List.append_assoc] using hres.2
    | none =>
      rw [apply_fallback_none hfb] at hne
      exact absurd hd hne
  cases hscan : scan_tokens [] ws with
  | some res =>
    obtain ⟨yp, p, a⟩ := res
    rw [eyp_of_scan_some hscan] at hp ⊢
    by_cases hpe : p = []
    · rw [if_pos hpe] at hp ⊢
      exact hfbgen _ hpe hp
    · rw [if_neg hpe]
      have hres := scan_tokens_recon ws [] yp p a hadv hscan
      simpa [List.append_assoc] using hres.2
  | none =>
    rw [eyp_of_scan_none hscan] at hp ⊢
    exact hfbgen _ rfl hp

/-- With `对` present, `extract_dui_parts` splits at the first `对` and runs
the token pipeline on the right part. -/
theorem extract_dui_parts_eq {s : Str} (h : dui ∈ s) :
    extract_dui_parts s =
      ⟨s.takeWhile (fun c => decide (c ≠ dui)),
       (extract_y_and_predicate (simple_segment ((s.dropWhile (fun c => decide (c ≠ dui))).tail))).1,
       (extract_y_and_predicate (simple_segment ((s.dropWhile (fun c => decide (c ≠ dui))).tail))).2.1,
       (extract_y_and_predicate (simple_segment ((s.dropWhile (fun c => decide (c ≠ dui))).tail))).2.2,
       (s.dropWhile (fun c => decide (c ≠ dui))).tail⟩ := by
  unfold extract_dui_parts py_split1
  rw [if_pos h, if_pos h]
  rfl

/-- With `对` present, the text after the first `对` starts the dropWhile tail. -/
theorem dropWhile_dui {s : Str} (h : dui ∈ s) :
    s.dropWhile (fun c => decide (c ≠ dui)) =
      dui :: (s.dropWhile (fun c => decide (c ≠ dui))).tail := by
  induction s with
  | nil => cases h
  | cons c r ih =>
    by_cases hc : c = dui
    · subst hc
      rw [List.dropWhile_cons_of_neg (by simp)]
      rfl
    · rw [List.dropWhile_cons_of_pos (by simp [hc])]
      have hr : dui ∈ r := by
        rcases List.mem_cons.1 h with h1 | h1
        · exact absurd h1.symm hc
        · exact h1
      exact ih hr

/-- C2: for every sentence containing 对, `extract_dui_parts` splits at the
first occurrence of 对 only: `before_dui ++ "对" ++ full_after_dui`
reconstructs the sentence, and `before_dui` is the verbatim prefix containing
no 对 (so every later 对 stays inside `full_after_dui`). -/
theorem claim2_split_invariant (s : Str) (h : dui ∈ s) :
    (extract_dui_parts s).before_dui ++ [dui] ++ (extract_dui_parts s).full_after_dui = s ∧
    dui ∉ (extract_dui_parts s).before_dui := by
  rw [extract_dui_parts_eq h]
  constructor
  · show s.takeWhile (fun c => decide (c ≠ dui)) ++ [dui] ++
        (s.dropWhile (fun c => decide (c ≠ dui))).tail = s
    conv_rhs => rw [← List.takeWhile_append_dropWhile (fun c => decide (c ≠ dui)) s]
    rw [dropWhile_dui h, List.append_assoc]
    rfl
  · intro hmem
    have := List.mem_takeWhile_imp hmem
    simp at this

theorem claim2_split_invariant_witness :
    dui ∈ ("他对我说了几句话".toList) ∧
    ((extract_dui_parts ("他对我说了几句话".toList)).before_dui ++ [dui] ++
        (extract_dui_parts ("他对我说了几句话".toList)).full_after_dui = ("他对我说了几句话".toList) ∧
      dui ∉ (extract_dui_parts ("他对我说了几句话".toList)).before_dui) :=
  ⟨by decide, claim2_split_invariant ("他对我说了几句话".toList) (by decide)⟩

/-- C6: for every input without 对, `extract_dui_parts` returns the record
whose five fields are all the empty string (and, being a total function of
the embedding, it raises nothing). -/
theorem claim6_no_dui_all_empty (s : Str) (h : dui ∉ s) :
    extract_dui_parts s = emptyParts := by
  unfold extract_dui_parts
  rw [if_neg h]

theorem claim6_no_dui_all_empty_witness :
    dui ∉ ("你好世界".toList) ∧ extract_dui_parts ("你好世界".toList) = emptyParts :=
  ⟨by decide, claim6_no_dui_all_empty ("你好世界".toList) (by decide)⟩

/-- C10: on every input whatsoever the extractor returns a `SentenceParts`
record (five string fields, each possibly empty) and never hits an
out-of-bounds list access: the variant in which the source's two list
indexings are guarded agrees with the total function on all inputs. -/
theorem claim10_total_safety (s : Str) :
    extract_dui_parts_checked s = some (extract_dui_parts s) := by
  unfold extract_dui_parts_checked extract_dui_parts py_split1
  by_cases h : dui ∈ s
  · rw [if_pos h, if_pos h, if_pos h]
    rfl
  · rw [if_neg h, if_neg h]

/-- C5 counterexample: the fallback segmenter's match test consults only the
predicate and degree-adverb sets, not the negation-word set, so the
multi-character negation word 没有 is not emitted as a single token even
though it is a negation-word entry scanned at position 0 with length 2. -/
theorem claim5_counterexample :
    ("没有".toList) ∈ NEGATION_WORDS ∧
    simple_segment ("没有".toList) = [("没".toList), ("有".toList)] ∧
    ("没有".toList) ∉ simple_segment ("没有".toList) := by
  refine ⟨by decide, by decide, by decide⟩

/-- C5 (amended): the fallback segmenter scans left to right trying lengths
4,3,2,1, emitting a token exactly when the substring is a lexicon predicate
or degree-adverb entry (negation-word entries are NOT consulted) and a single
character otherwise; hence the tokens concatenate back to the input, every
token is non-empty, and every token of length ≥ 2 is an exact predicate or
degree-adverb hit. -/
theorem claim5_segmenter_amended (t : Str) :
    (simple_segment t).flatten = t ∧
    ∀ tok ∈ simple_segment t,
      tok ≠ [] ∧ (2 ≤ tok.length → tok ∈ ALL_PREDICATES ∨ tok ∈ DEGREE_ADVERBS) :=
  ⟨simple_segment_flatten t, simple_segment_tokens t⟩

theorem claim5_segmenter_amended_witness :
    (simple_segment ("此发表".toList)).flatten = ("此发表".toList) ∧
    (("发表".toList) ∈ ALL_PREDICATES ∨ ("发表".toList) ∈ DEGREE_ADVERBS) :=
  ⟨(claim5_segmenter_amended ("此发表".toList)).1,
   ((claim5_segmenter_amended ("此发表".toList)).2 ("发表".toList) (by decide)).2 (by decide)⟩

/-- C1 counterexample: in the degree-adverb path the adverb itself is dropped
from the reconstruction.  For 我对这件事很担心 the predicate is 担心 (no
negation prefix), yet `y_phrase ++ predicate ++ after_predicate` is
这件事担心, not the post-对 text 这件事很担心. -/
theorem claim1_counterexample :
    (extract_dui_parts ("我对这件事很担心".toList)).predicate = ("担心".toList) ∧
    (extract_dui_parts ("我对这件事很担心".toList)).predicate.head? ∉
      [some '不', some '没', some '未'] ∧
    (extract_dui_parts ("我对这件事很担心".toList)).y_phrase ++
        (extract_dui_parts ("我对这件事很担心".toList)).predicate ++
        (extract_dui_parts ("我对这件事很担心".toList)).after_predicate ≠
      (extract_dui_parts ("我对这件事很担心".toList)).full_after_dui := by
  refine ⟨by decide, by decide, by decide⟩

/-- C1 (amended): whenever no token of the post-对 segmentation is a degree
adverb and the extracted predicate is non-empty,
`y_phrase ++ predicate ++ after_predicate` reconstructs `full_after_dui`
losslessly — in particular a negation prefix included in the predicate is
counted exactly once.  (When a degree adverb triggers the split, the adverb
and any tokens skipped between it and the predicate are omitted; when the
predicate is empty the other fields may be empty as well.) -/
theorem claim1_reconstruction_amended (s : Str) (h : dui ∈ s)
    (hadv : ∀ w ∈ simple_segment (extract_dui_parts s).full_after_dui, w ∉ DEGREE_ADVERBS)
    (hp : (extract_dui_parts s).predicate ≠ []) :
    (extract_dui_parts s).y_phrase ++ (extract_dui_parts s).predicate ++
      (extract_dui_parts s).after_predicate = (extract_dui_parts s).full_after_dui := by
  rw [extract_dui_parts_eq h] at hadv hp ⊢
  have := extract_y_and_predicate_recon
    (simple_segment ((s.dropWhile (fun c => decide (c ≠ dui))).tail)) hadv hp
  rw [simple_segment_flatten] at this
  exact this

theorem claim1_reconstruction_amended_witness :
    (extract_dui_parts ("他对我说了几句话".toList)).y_phrase ++
      (extract_dui_parts ("他对我说了几句话".toList)).predicate ++
      (extract_dui_parts ("他对我说了几句话".toList)).after_predicate =
    (extract_dui_parts ("他对我说了几句话".toList)).full_after_dui :=
  claim1_reconstruction_amended ("他对我说了几句话".toList) (by decide) (by decide) (by decide)

/-- C7 counterexample: when the token scan finds no trigger and the fallback
loop finds no qualifying token, the source returns an EMPTY `y_phrase`, not
the first two characters of `full_after_dui`: for 我对的 the post-对 text is
的 but the returned `y_phrase` is empty. -/
theorem claim7_counterexample :
    scan_tokens [] (simple_segment (extract_dui_parts ("我对的".toList)).full_after_dui) = none ∧
    fallback_scan [] (simple_segment (extract_dui_parts ("我对的".toList)).full_after_dui) = none ∧
    (extract_dui_parts ("我对的".toList)).full_after_dui.take 2 = ("的".toList) ∧
    (extract_dui_parts ("我对的".toList)).y_phrase ≠
      (extract_dui_parts ("我对的".toList)).full_after_dui.take 2 := by
  refine ⟨by decide, by decide, by decide, by decide⟩

/-- C7 (amended): for a sentence containing 对 where the token scan finds no
trigger (`scan_tokens` returns `none`) and the length-≥2 fallback finds no
qualifying token (`fallback_scan` returns `none`), `extract_dui_parts`
returns empty `y_phrase`, empty `predicate` and empty `after_predicate`
(there is no first-two-characters default in this extractor). -/
theorem claim7_no_trigger_amended (s : Str) (h : dui ∈ s)
    (h1 : scan_tokens [] (simple_segment (extract_dui_parts s).full_after_dui) = none)
    (h2 : fallback_scan [] (simple_segment (extract_dui_parts s).full_after_dui) = none) :
    (extract_dui_parts s).y_phrase = [] ∧ (extract_dui_parts s).predicate = [] ∧
      (extract_dui_parts s).after_predicate = [] := by
  rw [extract_dui_parts_eq h] at h1 h2 ⊢
  rw [eyp_of_scan_none h1, apply_fallback_none h2]
  exact ⟨rfl, rfl, rfl⟩

theorem claim7_no_trigger_amended_witness :
    (extract_dui_parts ("我对的".toList)).y_phrase = [] ∧
    (extract_dui_parts ("我对的".toList)).predicate = [] ∧
    (extract_dui_parts ("我对的".toList)).after_predicate = [] :=
  claim7_no_trigger_amended ("我对的".toList) (by decide) (by decide) (by decide)

/-- Python's `m in t` is the contiguous-substring relation. -/
theorem str_contains_iff (t m : Str) : str_contains t m = true ↔ m <:+: t := by
  induction t with
  | nil =>
    rw [str_contains]
    simp [List.isPrefixOf_iff_prefix, List.infix_nil, List.prefix_nil]
  | cons c ts ih =>
    rw [str_contains]
    simp only [Bool.or_eq_true, List.isPrefixOf_iff_prefix, ih, List.infix_cons_iff]

theorem check_markers_some {markers : List Str} {ctx m : Str}
    (h : check_markers markers ctx = some m) : m ∈ markers ∧ m <:+: ctx :=
  ⟨List.mem_of_find?_eq_some h, (str_contains_iff _ _).1 (List.find?_some h)⟩

theorem check_markers_eq_none {markers : List Str} {ctx : Str}
    (h : ¬ ∃ m ∈ markers, m <:+: ctx) : check_markers markers ctx = none := by
  rw [check_markers, List.find?_eq_none]
  intro x hx hsc
  exact h ⟨x, hx, (str_contains_iff _ _).1 hsc⟩

theorem check_markers_isSome {markers : List Str} {ctx : Str}
    (h : ∃ m ∈ markers, m <:+: ctx) : ∃ m, check_markers markers ctx = some m := by
  rw [← Option.isSome_iff_exists, check_markers, List.find?_isSome]
  obtain ⟨m, h1, h2⟩ := h
  exact ⟨m, h1, (str_contains_iff _ _).2 h2⟩

/-- When an override rule is registered and its cascade produces a result,
`analyse_in_context` records that category and marker (the corpus table plays
no part). -/
theorem analyse_with_override (table : CorpusTable)
    (predicate complement y_phrase full_sentence : Str) (r : OverrideRule) (tm : Str × Str)
    (hr : find_override predicate = some r)
    (ho : override_result r (complement ++ y_phrase ++ full_sentence) = some tm) :
    (analyse_in_context table predicate complement y_phrase full_sentence).contextual_type =
        some tm.1 ∧
      (analyse_in_context table predicate complement y_phrase full_sentence).matched_marker =
        some tm.2 := by
  simp only [analyse_in_context, hr, ho]
  exact ⟨trivial, rfl⟩

/-- C4: for a predicate with no registered override rule that is present in
the corpus table, the classified category is exactly the corpus-dominant
type, whatever the complement, Y-phrase and sentence are. -/
theorem claim4_corpus_fallback (table : CorpusTable)
    (predicate complement y_phrase full_sentence : Str) (st : PredicateStat)
    (hov : find_override predicate = none)
    (hlk : corpus_lookup table predicate = some st) :
    (analyse_in_context table predicate complement y_phrase full_sentence).contextual_type =
      some st.dominant_type := by
  simp only [analyse_in_context, hov, hlk]
  rfl

theorem claim4_corpus_fallback_witness :
    find_override ("说".toList) = none ∧
    corpus_lookup table_shuo ("说".toList) = some stat_shuo ∧
    (analyse_in_context table_shuo ("说".toList)
        ("了几句话".toList) ("我".toList) ("他对我说了几句话".toList)).contextual_type =
      some (("DA".toList)) :=
  ⟨by decide, rfl,
   claim4_corpus_fallback table_shuo ("说".toList) ("了几句话".toList) ("我".toList)
     ("他对我说了几句话".toList) stat_shuo (by decide) rfl⟩

/-- C3 counterexample: the rule registered for 发表 declares the
Directed-Action marker list [微笑, 笑容, 善意], but `analyse_in_context`
never consults DA marker lists.  With 微笑 (and no other marker) in the
context, the claim predicts category DA, while the code resolves no
contextual category at all (falling back to the corpus, here empty). -/
theorem claim3_counterexample :
    (∃ r, find_override ("发表".toList) = some r ∧
      ("微笑".toList) ∈ r.DA_markers) ∧
    ("微笑".toList) <:+: (("微笑".toList) ++ [] ++ []) ∧
    (analyse_in_context [] ("发表".toList) ("微笑".toList) [] []).contextual_type = none := by
  refine ⟨⟨_, rfl, by decide⟩, by decide, by decide⟩

/-- C3 (amended): when the predicate has a registered override rule and at
least one marker of its Aboutness/Mental-State/Evaluation lists occurs in
the combined context `complement ++ y_phrase ++ full_sentence`, the resolved
category is the one of the first matching list in the fixed order ABT, MS,
EVAL, and the recorded marker is a matching marker of the rule; the declared
DA marker lists are never consulted. -/
theorem claim3_override_amended (table : CorpusTable)
    (predicate complement y_phrase full_sentence : Str) (r : OverrideRule)
    (hr : find_override predicate = some r)
    (hm : (∃ m ∈ r.ABT_markers, m <:+: (complement ++ y_phrase ++ full_sentence)) ∨
          (∃ m ∈ r.MS_markers, m <:+: (complement ++ y_phrase ++ full_sentence)) ∨
          (∃ m ∈ r.EVAL_markers, m <:+: (complement ++ y_phrase ++ full_sentence))) :
    (analyse_in_context table predicate complement y_phrase full_sentence).contextual_type =
      some (if ∃ m ∈ r.ABT_markers, m <:+: (complement ++ y_phrase ++ full_sentence) then
              ("ABT".toList)
            else if ∃ m ∈ r.MS_markers, m <:+: (complement ++ y_phrase ++ full_sentence) then
              ("MS".toList)
            else ("EVAL".toList)) ∧
    ∃ m, (analyse_in_context table predicate complement y_phrase full_sentence).matched_marker =
        some m ∧ m <:+: (complement ++ y_phrase ++ full_sentence) := by
  by_cases hA : ∃ m ∈ r.ABT_markers, m <:+: (complement ++ y_phrase ++ full_sentence)
  · obtain ⟨m, hAc⟩ := check_markers_isSome hA
    have ho : override_result r (complement ++ y_phrase ++ full_sentence) =
        some (("ABT".toList), m) := by
      unfold override_result
      rw [hAc]
    have hres := analyse_with_override table predicate complement y_phrase full_sentence r _ hr ho
    rw [if_pos hA]
    exact ⟨hres.1, m, hres.2, (check_markers_some hAc).2⟩
  · have hAn := check_markers_eq_none hA
    rw [if_neg hA]
    by_cases hM : ∃ m ∈ r.MS_markers, m <:+: (complement ++ y_phrase ++ full_sentence)
    · obtain ⟨m, hMc⟩ := check_markers_isSome hM
      have ho : override_result r (complement ++ y_phrase ++ full_sentence) =
          some (("MS".toList), m) := by
        unfold override_result
        rw [hAn, hMc]
      have hres := analyse_with_override table predicate complement y_phrase full_sentence r _ hr ho
      rw [if_pos hM]
      exact ⟨hres.1, m, hres.2, (check_markers_some hMc).2⟩
    · have hMn := check_markers_eq_none hM
      have hE : ∃ m ∈ r.EVAL_markers, m <:+: (complement ++ y_phrase ++ full_sentence) := by
        rcases hm with h | h | h
        · exact absurd h hA
        · exact absurd h hM
        · exact h
      obtain ⟨m, hEc⟩ := check_markers_isSome hE
      have ho : override_result r (complement ++ y_phrase ++ full_sentence) =
          some (("EVAL".toList), m) := by
        unfold override_result
        rw [hAn, hMn, hEc]
      have hres := analyse_with_override table predicate complement y_phrase full_sentence r _ hr ho
      rw [if_neg hM]
      exact ⟨hres.1, m, hres.2, (check_markers_some hEc).2⟩

theorem claim3_override_amended_witness :
    find_override ("表示".toList) = some rule_biaoshi ∧
    (analyse_in_context [] ("表示".toList) ("关切".toList) [] []).contextual_type =
      some (if ∃ m ∈ rule_biaoshi.ABT_markers, m <:+: (("关切".toList) ++ [] ++ []) then
              ("ABT".toList)
            else if ∃ m ∈ rule_biaoshi.MS_markers, m <:+: (("关切".toList) ++ [] ++ []) then
              ("MS".toList)
            else ("EVAL".toList)) :=
  ⟨by decide,
   (claim3_override_amended [] ("表示".toList) ("关切".toList) [] [] rule_biaoshi
     (by decide) (Or.inl ⟨("关切".toList), by decide, by decide⟩)).1⟩

/-- C8: on the concrete sentence 专家对此发表意见 the extractor yields
predicate 发表 and Y-phrase 此, and — for every corpus table — the
classifier finds the override marker 意见 in the context
(`after_predicate ++ y_phrase ++ sentence`, as wired in the application) and
resolves Aboutness. -/
theorem claim8_concrete_scenario (table : CorpusTable) :
    (extract_dui_parts ("专家对此发表意见".toList)).predicate = ("发表".toList) ∧
    (extract_dui_parts ("专家对此发表意见".toList)).y_phrase = ("此".toList) ∧
    (analyse_in_context table ("发表".toList)
        (extract_dui_parts ("专家对此发表意见".toList)).after_predicate
        (extract_dui_parts ("专家对此发表意见".toList)).y_phrase
        ("专家对此发表意见".toList)).contextual_type = some ("ABT".toList) ∧
    (analyse_in_context table ("发表".toList)
        (extract_dui_parts ("专家对此发表意见".toList)).after_predicate
        (extract_dui_parts ("专家对此发表意见".toList)).y_phrase
        ("专家对此发表意见".toList)).matched_marker = some ("意见".toList) := by
  have hparts : extract_dui_parts ("专家对此发表意见".toList) =
      ⟨("专家".toList), ("此".toList), ("发表".toList), ("意见".toList), ("此发表意见".toList)⟩ := by
    decide
  rw [hparts]
  refine ⟨rfl, rfl, ?_⟩
  exact analyse_with_override table ("发表".toList) ("意见".toList) ("此".toList)
    ("专家对此发表意见".toList) rule_fabiao ((("ABT".toList), ("意见".toList)))
    (by decide) (by decide)

theorem count_ge_trans : ∀ (a b c : Str × Str × Nat),
    count_ge a b = true → count_ge b c = true → count_ge a c = true := by
  intro a b c
  unfold count_ge
  simp only [decide_eq_true_eq]
  omega

theorem count_ge_total : ∀ (a b : Str × Str × Nat),
    (count_ge a b || count_ge b a) = true := by
  intro a b
  unfold count_ge
  simp only [Bool.or_eq_true, decide_eq_true_eq]
  omega

/-- Decoding membership in the candidate pool of `get_similar_predicates`. -/
theorem similar_pool_mem {table : CorpusTable} {predicate : Str} {st : PredicateStat}
    {e : Str × Str × Nat} (he : e ∈ similar_pool table predicate st) :
    e.1 ≠ predicate ∧ e.2.1 = st.dominant_type ∧
    ∃ kv ∈ table, kv.1 = e.1 ∧ kv.2.dominant_type = st.dominant_type ∧
      |kv.2.confidence - st.confidence| < 1 / 5 ∧ e.2.2 = kv.2.total := by
  unfold similar_pool at he
  rw [List.mem_map] at he
  obtain ⟨kv, hkv, heq⟩ := he
  rw [List.mem_filter] at hkv
  obtain ⟨hkv1, hkv2⟩ := hkv
  rw [Bool.and_eq_true, Bool.and_eq_true] at hkv2
  obtain ⟨⟨hd1, hd2⟩, hd3⟩ := hkv2
  rw [decide_eq_true_eq] at hd1 hd2 hd3
  cases heq
  exact ⟨hd1, rfl, kv, hkv1, rfl, hd2, hd3, rfl⟩

theorem get_similar_of_some {table : CorpusTable} {predicate : Str} {st : PredicateStat}
    (limit : Nat) (h : corpus_lookup table predicate = some st) :
    get_similar_predicates table predicate limit =
      ((similar_pool table predicate st).mergeSort count_ge).take limit := by
  unfold get_similar_predicates
  rw [h]

/-- C9: `get_similar_predicates` returns `[]` for a predicate missing from
the table; otherwise it returns at most `limit` entries, each a predicate
distinct from the reference sharing its dominant type with confidence within
0.2, in descending order of total count, and with equal counts kept in table
(insertion) order: for every count value, the entries carrying it form a
prefix of the table-ordered candidate pool filtered to that count. -/
theorem claim9_similar_predicates (table : CorpusTable) (predicate : Str) (limit : Nat) :
    (corpus_lookup table predicate = none → get_similar_predicates table predicate limit = []) ∧
    ∀ st, corpus_lookup table predicate = some st →
      (get_similar_predicates table predicate limit).length ≤ limit ∧
      (∀ e ∈ get_similar_predicates table predicate limit,
        e.1 ≠ predicate ∧ e.2.1 = st.dominant_type ∧
        ∃ kv ∈ table, kv.1 = e.1 ∧ kv.2.dominant_type = st.dominant_type ∧
          |kv.2.confidence - st.confidence| < 1 / 5 ∧ e.2.2 = kv.2.total) ∧
      (get_similar_predicates table predicate limit).Pairwise
        (fun a b => b.2.2 ≤ a.2.2) ∧
      ∀ c : Nat,
        (get_similar_predicates table predicate limit).filter (fun e => decide (e.2.2 = c)) <+:
          (similar_pool table predicate st).filter (fun e => decide (e.2.2 = c)) := by
  constructor
  · intro h
    unfold get_similar_predicates
    rw [h]
  · intro st hst
    rw [get_similar_of_some limit hst]
    refine ⟨?_, ?_, ?_, ?_⟩
    · rw [List.length_take]
      exact min_le_left _ _
    · intro e he
      have he2 : e ∈ (similar_pool table predicate st).mergeSort count_ge :=
        List.take_subset _ _ he
      have he3 : e ∈ similar_pool table predicate st :=
        ((List.mergeSort_perm _ count_ge).mem_iff).1 he2
      exact similar_pool_mem he3
    · have hs := List.sorted_mergeSort count_ge_trans count_ge_total
        (similar_pool table predicate st)
      have hp := List.Pairwise.sublist (List.take_sublist limit _) hs
      exact hp.imp (fun hab => by
        have := of_decide_eq_true hab
        exact this)
    · intro c
      have h1 : (((similar_pool table predicate st).mergeSort count_ge).take limit).filter
            (fun e => decide (e.2.2 = c)) <+:
          ((similar_pool table predicate st).mergeSort count_ge).filter
            (fun e => decide (e.2.2 = c)) :=
        (List.take_prefix limit _).filter _
      have h2 : ((similar_pool table predicate st).filter (fun e => decide (e.2.2 = c))).Sublist
          ((similar_pool table predicate st).mergeSort count_ge) := by
        apply List.sublist_mergeSort count_ge_trans count_ge_total
        · apply List.pairwise_of_forall_mem_list
          intro a ha b hb
          have ha2 : a.2.2 = c := of_decide_eq_true (List.mem_filter.1 ha).2
          have hb2 : b.2.2 = c := of_decide_eq_true (List.mem_filter.1 hb).2
          exact decide_eq_true (by omega)
        · exact List.filter_sublist _
      have hid : (((similar_pool table predicate st).filter (fun e => decide (e.2.2 = c))).filter
            (fun e => decide (e.2.2 = c))) =
          (similar_pool table predicate st).filter (fun e => decide (e.2.2 = c)) :=
        List.filter_eq_self.2 (fun a ha => (List.mem_filter.1 ha).2)
      have h3 := h2.filter (fun e => decide (e.2.2 = c))
      rw [hid] at h3
      have h4 := ((List.mergeSort_perm (similar_pool table predicate st) count_ge).filter
        (fun e => decide (e.2.2 = c))).length_eq
      have h5 := h3.eq_of_length h4.symm
      rw [← h5] at h1
      exact h1

theorem claim9_similar_predicates_witness :
    corpus_lookup table_shuo ("说".toList) = some stat_shuo ∧
    (get_similar_predicates table_shuo ("说".toList) 5).length ≤ 5 :=
  ⟨rfl, ((claim9_similar_predicates table_shuo ("说".toList) 5).2 stat_shuo rfl).1⟩

end DuiAnalyser
